import Mathlib

/-!
Verification of the planningcenterkit base client (`src/client.ts`) and the
people module (`src/modules/people.ts`).

The client is a stateful fluent query builder over `fetch`.  We embed it
shallowly: the mutable instance fields become a `PcoClient` record, each
method becomes a function from (and, for mutators, to) that record, and the
single HTTP exchange performed by `request` is modelled by passing in the
simulated `HttpResponse` and returning both the `SentRequest` that would be
issued and the `Except`-valued outcome.
-/

set_option maxRecDepth 8192

/-- JSON values as parsed from response bodies / serialized into request
bodies.  Numbers are modelled as integers: every numeric value the claims
touch is an integer. -/
inductive Json where
  | null : Json
  | bool : Bool → Json
  | num : Int → Json
  | str : String → Json
  | arr : List Json → Json
  | obj : List (String × Json) → Json

/-- Escaping for the JSON string serializer (the characters `JSON.stringify`
must escape in the strings this client ever serializes). -/
def jsonEscapeChar (c : Char) : String :=
  if c = '"' then "\\\""
  else if c = '\\' then "\\\\"
  else if c = '\n' then "\\n"
  else if c = '\t' then "\\t"
  else if c = '\r' then "\\r"
  else String.singleton c

def jsonEscape (s : String) : String :=
  String.join (s.toList.map jsonEscapeChar)

mutual

/-- Models the JS `JSON.stringify` applied to request bodies by `post` and
`patch`. -/
def Json.stringify : Json → String
  | .null => "null"
  | .bool b => if b then "true" else "false"
  | .num n => toString n
  | .str s => "\"" ++ jsonEscape s ++ "\""
  | .arr xs => "[" ++ String.intercalate "," (Json.stringifyList xs) ++ "]"
  | .obj fs => "\x7b" ++ String.intercalate "," (Json.stringifyObj fs) ++ "\x7d"

def Json.stringifyList : List Json → List String
  | [] => []
  | x :: xs => Json.stringify x :: Json.stringifyList xs

def Json.stringifyObj : List (String × Json) → List String
  | [] => []
  | (k, v) :: fs => ("\"" ++ jsonEscape k ++ "\":" ++ Json.stringify v) :: Json.stringifyObj fs

end

/-- JS object property write `o[k] = v`: an existing key keeps its position
and receives the new value, a new key is appended at the end.  Used to model
the `filters` object and the header objects built with spread syntax. -/
def setKey {α : Type} : List (String × α) → String → α → List (String × α)
  | [], k, v => [(k, v)]
  | p :: rest, k, v => if p.1 = k then (k, v) :: rest else p :: setKey rest k v

/-- JS object property read `o[k]` (first entry with the given key). -/
def lookupKey {α : Type} : List (String × α) → String → Option α
  | [], _ => none
  | p :: rest, k => if p.1 = k then some p.2 else lookupKey rest k

/-- The constructor's version check, regex `^\d{4}-\d{2}-\d{2}$`
(client.ts line 236). -/
def matchesVersion (s : String) : Bool :=
  match s.toList with
  | [y1, y2, y3, y4, h1, m1, m2, h2, d1, d2] =>
    y1.isDigit && y2.isDigit && y3.isDigit && y4.isDigit && h1 == '-'
      && m1.isDigit && m2.isDigit && h2 == '-' && d1.isDigit && d2.isDigit
  | _ => false

/-- A lowercase hexadecimal digit, the character class `[0-9a-f]`. -/
def isLowerHex (c : Char) : Bool :=
  c.isDigit || (decide ('a' ≤ c) && decide (c ≤ 'f'))

/-- `PcoClient.validateToken` (client.ts line 301), regex
`^[0-9a-f]{64}$|^pco_tok_[0-9a-f]{72}$`. -/
def validateToken (token : String) : Bool :=
  (token.length == 64 && token.toList.all isLowerHex)
    || (token.startsWith "pco_tok_" && token.length == 80
          && (token.toList.drop 8).all isLowerHex)

/-- The base64 alphabet indexing used by `btoa`. -/
def base64Char (n : Nat) : Char :=
  "ABCDEFGHIJKLMNOPQRSTUVWXYZabcdefghijklmnopqrstuvwxyz0123456789+/".toList.getD n '?'

/-- Base64 encoding of a byte list, three bytes at a time with `=` padding. -/
def btoaChunks : List Nat → List Char
  | [] => []
  | [b1] => [base64Char (b1 / 4), base64Char (b1 % 4 * 16), '=', '=']
  | [b1, b2] =>
    [base64Char (b1 / 4), base64Char (b1 % 4 * 16 + b2 / 16), base64Char (b2 % 16 * 4), '=']
  | b1 :: b2 :: b3 :: rest =>
    base64Char (b1 / 4) :: base64Char (b1 % 4 * 16 + b2 / 16)
      :: base64Char (b2 % 16 * 4 + b3 / 64) :: base64Char (b3 % 64) :: btoaChunks rest

/-- JS `btoa`: base64 of the code points of a latin-1 string (client.ts
line 242 applies it to `appId + ':' + personalAccessToken`). -/
def btoa (s : String) : String :=
  String.mk (btoaChunks (s.toList.map Char.toNat))

/-- The union of `PcoClientConfigPersonalAccessToken` and
`PcoClientConfigOAuth`, flattened: a field is `none` exactly when the key is
absent from the JS object, so `'personalAccessToken' in config` is
`config.personalAccessToken.isSome`. -/
structure PcoClientConfig where
  personalAccessToken : Option String := none
  appId : Option String := none
  token : Option String := none
  clientId : Option String := none
  clientSecret : Option String := none
  refreshToken : Option String := none
  expiresAt : Option Int := none
  customApiBaseUrl : Option String := none
  version : Option String := none
deriving DecidableEq

/-- The `order` field `{field, symbol}` of the builder state. -/
structure SortOrder where
  field : String
  symbol : String
deriving DecidableEq

/-- The `pagination` field `{limit, offset}` of the builder state.  JS
numbers are modelled as integers (all values the repository uses are). -/
structure Pagination where
  limit : Int
  offset : Int
deriving DecidableEq

/-- The instance state of `PcoClient` (client.ts lines 178-185): the fixed
configuration derived by the constructor plus the four mutable builder
fields.  `customApiBaseUrl : string | boolean` is only ever `false` or the
configured string, so `none` stands for `false`. -/
structure PcoClient where
  customApiBaseUrl : Option String
  version : Option String
  authentication : String
  includes : List String
  filters : List (String × String × String)
  order : SortOrder
  pagination : Pagination
deriving DecidableEq

/-- A client right after the constructor assigned `authentication`,
`customApiBaseUrl` and `version`: the builder fields carry their class
initializers (client.ts lines 182-185). -/
def mkClient (authentication : String) (customApiBaseUrl : Option String)
    (version : Option String) : PcoClient :=
  { customApiBaseUrl := customApiBaseUrl
    version := version
    authentication := authentication
    includes := []
    filters := []
    order := { field := "created_at", symbol := "" }
    pagination := { limit := 10, offset := 0 } }

/-- The version validation at the top of the constructor (client.ts lines
235-240): runs only when the `version` key is present and truthy, and
determines the stored `this.version`. -/
def checkVersion (config : PcoClientConfig) : Except String (Option String) :=
  match config.version with
  | none => .ok none
  | some v =>
    if v = "" then .ok none
    else if matchesVersion v then .ok (some v)
    else .error "Invalid version format"

/-- The constructor implementation (client.ts lines 234-253).  A thrown
`Error` is modelled as `Except.error` with the error message.  When `appId`
is absent JS stringifies `undefined`, hence the `getD "undefined"`. -/
def construct (config : PcoClientConfig) : Except String PcoClient :=
  match checkVersion config with
  | .error e => .error e
  | .ok version =>
    match config.personalAccessToken with
    | some pat =>
      .ok (mkClient ("Basic " ++ btoa (config.appId.getD "undefined" ++ ":" ++ pat))
            config.customApiBaseUrl version)
    | none =>
      match config.token with
      | some token =>
        if validateToken token then
          .ok (mkClient ("Bearer " ++ token) config.customApiBaseUrl version)
        else
          .error "Invalid token format"
      | none => .error "Invalid configuration"

/-- The `RequestInit` options accepted by `request`; `{}` is the default. -/
structure RequestOptions where
  method : Option String := none
  body : Option String := none
  headers : List (String × String) := []
deriving DecidableEq

/-- A simulated HTTP response: `response.ok` is `200 ≤ status ≤ 299`, and
`response.json()` yields `body`. -/
structure HttpResponse where
  status : Nat
  statusText : String
  body : Json

/-- The single `fetch` call `request` issues: its URL, method, body and the
headers after the spreads merged them. -/
structure SentRequest where
  url : String
  method : String
  body : Option String
  headers : List (String × String)

/-- The error message thrown for a non-2xx response (client.ts line 332). -/
def apiErrorMsg (status : Nat) (statusText : String) : String :=
  "API request failed with status " ++ toString status ++ "\n" ++ statusText
    ++ "\nMore details: https://developer.planning.center/docs/#/overview/errors"

/-- `PcoClient.request` (client.ts lines 313-336): merge the version header
(only when `this.version` is truthy) and then `Content-Type`/`Authorization`
into the caller's headers, issue one call to `apiBaseUrl + endpoint`, throw
on a non-2xx status, otherwise return the parsed JSON body. -/
def request (c : PcoClient) (endpoint : String) (opts : RequestOptions)
    (resp : HttpResponse) : SentRequest × Except String Json :=
  let hs : List (String × String) :=
    match c.version with
    | some v => if v = "" then opts.headers else setKey opts.headers "X-PCO-API-Version" v
    | none => opts.headers
  let apiBaseUrl : String :=
    match c.customApiBaseUrl with
    | some u => if u = "" then "https://api.planningcenteronline.com" else u
    | none => "https://api.planningcenteronline.com"
  let finalHeaders := setKey (setKey hs "Content-Type" "application/json")
    "Authorization" c.authentication
  let sent : SentRequest :=
    { url := apiBaseUrl ++ endpoint
      method := opts.method.getD "GET"
      body := opts.body
      headers := finalHeaders }
  if 200 ≤ resp.status ∧ resp.status ≤ 299 then
    (sent, .ok resp.body)
  else
    (sent, .error (apiErrorMsg resp.status resp.statusText))

namespace PcoClient

/-- `PcoClient.include` (client.ts lines 421-424): wholesale replacement of
the includes list.  (`include` is a Lean keyword, hence the primed name.) -/
def include' (c : PcoClient) (relations : List String) : PcoClient :=
  { c with includes := relations }

/-- `PcoClient.where` (client.ts lines 437-440): `this.filters[field] =
{operator, value}`.  (`where` is a Lean keyword, hence the primed name.)
The `value : any` is modelled as the string it interpolates to. -/
def where' (c : PcoClient) (field operator value : String) : PcoClient :=
  { c with filters := setKey c.filters field (operator, value) }

/-- The `'asc' | 'desc'` direction argument of `orderBy`. -/
inductive Direction where
  | asc : Direction
  | desc : Direction
deriving DecidableEq

/-- `PcoClient.orderBy` (client.ts lines 452-464): `'asc'` maps to the `-`
symbol and `'desc'` to the empty symbol. -/
def orderBy (c : PcoClient) (field : String) (direction : Direction) : PcoClient :=
  let symbol : String :=
    match direction with
    | .asc => "-"
    | .desc => ""
  { c with order := { field := field, symbol := symbol } }

/-- A call of `orderBy` without a direction argument: the TS default
parameter is `'desc'`. -/
def orderByDefault (c : PcoClient) (field : String) : PcoClient :=
  orderBy c field .desc

/-- `PcoClient.paginate` (client.ts lines 476-479). -/
def paginate (c : PcoClient) (limit offset : Int) : PcoClient :=
  { c with pagination := { limit := limit, offset := offset } }

/-- The `for (let field in this.filters)` loop of `buildQuery` (client.ts
lines 487-490), accumulating onto the query built so far. -/
def whereSegs : List (String × String × String) → String → String
  | [], query => query
  | (field, operator, value) :: rest, query =>
    whereSegs rest (query ++ ("&where[" ++ field ++ "]" ++ operator ++ value))

/-- The string built by `PcoClient.buildQuery` (client.ts lines 485-492),
before the state reset. -/
def buildQueryStr (c : PcoClient) : String :=
  let q := "?include=" ++ String.intercalate "," c.includes
  let q := whereSegs c.filters q
  let q := q ++ ("&order=" ++ c.order.symbol ++ c.order.field)
  let q := q ++ ("&limit=" ++ toString c.pagination.limit
    ++ "&offset=" ++ toString c.pagination.offset)
  q

/-- `PcoClient.buildQuery` (client.ts lines 485-501): returns the query
string and, as the mutation of `this`, the client with the four builder
fields cleared back to their defaults (lines 495-498). -/
def buildQuery (c : PcoClient) : String × PcoClient :=
  (buildQueryStr c,
   { c with
      includes := []
      filters := []
      order := { field := "created_at", symbol := "" }
      pagination := { limit := 10, offset := 0 } })

/-- `PcoClient.get` (client.ts lines 354-356): `buildQuery` runs (and resets
the state) before the request is issued. -/
def get (c : PcoClient) (endpoint : String) (resp : HttpResponse) :
    (SentRequest × Except String Json) × PcoClient :=
  let p := buildQuery c
  (request p.2 (endpoint ++ p.1) {} resp, p.2)

/-- `PcoClient.post` (client.ts lines 371-373). -/
def post (c : PcoClient) (endpoint : String) (body : Json) (resp : HttpResponse) :
    (SentRequest × Except String Json) × PcoClient :=
  let p := buildQuery c
  (request p.2 (endpoint ++ p.1) { method := some "POST", body := some body.stringify } resp,
   p.2)

/-- `PcoClient.patch` (client.ts lines 388-390). -/
def patch (c : PcoClient) (endpoint : String) (body : Json) (resp : HttpResponse) :
    (SentRequest × Except String Json) × PcoClient :=
  let p := buildQuery c
  (request p.2 (endpoint ++ p.1) { method := some "PATCH", body := some body.stringify } resp,
   p.2)

/-- `PcoClient.delete` (client.ts lines 404-406). -/
def delete (c : PcoClient) (endpoint : String) (resp : HttpResponse) :
    (SentRequest × Except String Json) × PcoClient :=
  let p := buildQuery c
  (request p.2 (endpoint ++ p.1) { method := some "DELETE" } resp, p.2)

end PcoClient

/-- `PcoPeople.getPerson` (people.ts lines 88-92): a GET to the fixed people
path suffixed with the builder-derived query string. -/
def PcoPeople.getPerson (c : PcoClient) (resp : HttpResponse) :
    (SentRequest × Except String Json) × PcoClient :=
  let p := PcoClient.buildQuery c
  (request p.2 ("/people/v2/people" ++ p.1) {} resp, p.2)

/-- A freshly constructed client (builder fields at their initializers),
used for the concrete examples of the claims. -/
def freshClient : PcoClient :=
  mkClient "Bearer tok" none none

/-- Does `pat` occur contiguously in `l`? -/
def subOccurs (pat : List Char) : List Char → Bool
  | [] => pat.isEmpty
  | c :: rest => pat.isPrefixOf (c :: rest) || subOccurs pat rest

/-- String containment: `pat` is a contiguous substring of `s`. -/
def containsSub (s pat : String) : Bool :=
  subOccurs pat.data s.data

/-- The version check of the constructor passes (absent, empty, or matching
the `YYYY-MM-DD` pattern): the condition under which construction never
throws `Invalid version format`. -/
def versionPasses (config : PcoClientConfig) : Bool :=
  match config.version with
  | none => true
  | some v => v == "" || matchesVersion v

/-! ### Helper lemmas -/

theorem strJoin_cons (s : String) (ss : List String) :
    String.join (s :: ss) = s ++ String.join ss :=
  String.ext (by simp [String.join_eq, String.data_append])

theorem strJoin_append (a b : List String) :
    String.join (a ++ b) = String.join a ++ String.join b :=
  String.ext (by simp [String.join_eq, String.data_append])

theorem subOccurs_append (pat pre suf : List Char) :
    subOccurs pat (pre ++ (pat ++ suf)) = true := by
  induction pre with
  | nil =>
    simp only [List.nil_append]
    cases pat with
    | nil => cases suf <;> simp [subOccurs, List.isPrefixOf]
    | cons p ps =>
      have h : (p :: ps).isPrefixOf ((p :: ps) ++ suf) = true :=
        List.isPrefixOf_iff_prefix.mpr (List.prefix_append _ _)
      show subOccurs (p :: ps) (p :: (ps ++ suf)) = true
      unfold subOccurs
      rw [show p :: (ps ++ suf) = (p :: ps) ++ suf from rfl, h]
      rfl
  | cons a pre ih =>
    simp only [List.cons_append]
    unfold subOccurs
    rw [ih]
    simp

theorem containsSub_intro (s pre pat suf : String)
    (h : s.data = pre.data ++ (pat.data ++ suf.data)) : containsSub s pat = true := by
  unfold containsSub
  rw [h]
  exact subOccurs_append _ _ _

theorem lookupKey_setKey_self {α : Type} (l : List (String × α)) (k : String) (v : α) :
    lookupKey (setKey l k v) k = some v := by
  induction l with
  | nil => simp [setKey, lookupKey]
  | cons p rest ih =>
    by_cases h : p.1 = k
    · simp [setKey, h, lookupKey]
    · simp [setKey, h, lookupKey, ih]

theorem lookupKey_setKey_ne {α : Type} (l : List (String × α)) (k k' : String) (v : α)
    (h : k ≠ k') : lookupKey (setKey l k' v) k = lookupKey l k := by
  have h' : ¬(k' = k) := fun he => h he.symm
  induction l with
  | nil => simp [setKey, lookupKey, h']
  | cons p rest ih =>
    by_cases hp : p.1 = k'
    · have hpk : ¬(p.1 = k) := by rw [hp]; exact h'
      simp [setKey, hp, lookupKey, hpk, h']
    · by_cases hpk : p.1 = k <;> simp [setKey, hp, lookupKey, hpk, ih, h, h']

theorem lookupKey_decomp {α : Type} (l : List (String × α)) (k : String) (x : α)
    (h : lookupKey l k = some x) : ∃ l1 l2, l = l1 ++ (k, x) :: l2 := by
  induction l with
  | nil => simp [lookupKey] at h
  | cons p rest ih =>
    obtain ⟨a, b⟩ := p
    by_cases hp : a = k
    · subst hp
      simp [lookupKey] at h
      exact ⟨[], rest, by simp [h]⟩
    · simp [lookupKey, hp] at h
      obtain ⟨l1, l2, rfl⟩ := ih h
      exact ⟨(a, b) :: l1, l2, rfl⟩

theorem matchesVersion_ne_empty {v : String} (h : matchesVersion v = true) : v ≠ "" := by
  intro he
  subst he
  exact absurd h (by decide)

theorem whereSegs_eq (l : List (String × String × String)) (acc : String) :
    PcoClient.whereSegs l acc
      = acc ++ String.join (l.map fun t => "&where[" ++ t.1 ++ "]" ++ t.2.1 ++ t.2.2) := by
  induction l generalizing acc with
  | nil => simp [PcoClient.whereSegs, String.join, String.append_empty]
  | cons t rest ih =>
    obtain ⟨f, op, v⟩ := t
    simp only [PcoClient.whereSegs, ih, List.map_cons, strJoin_cons, String.append_assoc]

/-- The exact string `buildQuery` produces, as a single concatenation. -/
theorem buildQueryStr_format (c : PcoClient) :
    PcoClient.buildQueryStr c
      = "?include=" ++ String.intercalate "," c.includes
        ++ String.join (c.filters.map fun t => "&where[" ++ t.1 ++ "]" ++ t.2.1 ++ t.2.2)
        ++ ("&order=" ++ c.order.symbol ++ c.order.field)
        ++ ("&limit=" ++ toString c.pagination.limit ++ "&offset="
              ++ toString c.pagination.offset) := by
  simp only [PcoClient.buildQueryStr]
  rw [whereSegs_eq]

theorem checkVersion_passes (cfg : PcoClientConfig) (h : versionPasses cfg = true) :
    ∃ ver, checkVersion cfg = .ok ver := by
  unfold versionPasses at h
  unfold checkVersion
  cases hv : cfg.version with
  | none => exact ⟨none, rfl⟩
  | some v =>
    rw [hv] at h
    by_cases he : v = ""
    · exact ⟨none, by simp [he]⟩
    · have hm : matchesVersion v = true := by
        have h2 : (v == "") = true ∨ matchesVersion v = true := by simpa using h
        rcases h2 with h1 | h1
        · exact absurd (eq_of_beq h1) he
        · exact h1
      exact ⟨some v, by simp [he, hm]⟩

theorem checkVersion_error (cfg : PcoClientConfig) (e : String)
    (h : checkVersion cfg = .error e) : e = "Invalid version format" := by
  unfold checkVersion at h
  cases hv : cfg.version with
  | none => rw [hv] at h; exact absurd h (by simp)
  | some v =>
    rw [hv] at h
    by_cases he : v = ""
    · simp [he] at h
    · by_cases hm : matchesVersion v
      · simp [he, hm] at h
      · simp [he, hm] at h
        exact h.symm

/-! ### Claims -/

/-- The four builder fields hold their default values. -/
def builderCleared (c : PcoClient) : Prop :=
  c.includes = [] ∧ c.filters = []
    ∧ c.order = { field := "created_at", symbol := "" }
    ∧ c.pagination = { limit := 10, offset := 0 }

/-- Claim C1: for every prior builder state, after any call to `buildQuery`
the client's includes, filters, order, and pagination fields equal their
defaults `[]`, `{}`, `{field:'created_at', symbol:''}`, `{limit:10,
offset:0}`; consequently after any terminal request (`get`/`post`/`patch`/
`delete`/`getPerson`) completes — the response `r`, hence success or
failure, being arbitrary — the builder state is at these defaults. -/
theorem claim_C1_state_reset (c : PcoClient) (e : String) (b : Json) (r : HttpResponse) :
    builderCleared (PcoClient.buildQuery c).2
    ∧ builderCleared (PcoClient.get c e r).2
    ∧ builderCleared (PcoClient.post c e b r).2
    ∧ builderCleared (PcoClient.patch c e b r).2
    ∧ builderCleared (PcoClient.delete c e r).2
    ∧ builderCleared (PcoPeople.getPerson c r).2 :=
  ⟨⟨rfl, rfl, rfl, rfl⟩, ⟨rfl, rfl, rfl, rfl⟩, ⟨rfl, rfl, rfl, rfl⟩,
   ⟨rfl, rfl, rfl, rfl⟩, ⟨rfl, rfl, rfl, rfl⟩, ⟨rfl, rfl, rfl, rfl⟩⟩

/-- Claim C5: for every field name, `orderBy(field,'asc')` sets the order
symbol to `-` and `orderBy(field,'desc')` — also the default when no
direction is given — sets it to the empty symbol; concretely,
`orderBy('created_at','asc')` then `buildQuery()` yields a query string
containing `order=-created_at`, and with `'desc'` one containing
`order=created_at`. -/
theorem claim_C5_orderBy :
    (∀ (c : PcoClient) (field : String),
        (PcoClient.orderBy c field .asc).order = { field := field, symbol := "-" })
    ∧ (∀ (c : PcoClient) (field : String),
        (PcoClient.orderBy c field .desc).order = { field := field, symbol := "" })
    ∧ (∀ (c : PcoClient) (field : String),
        PcoClient.orderByDefault c field = PcoClient.orderBy c field .desc)
    ∧ containsSub (PcoClient.buildQuery (PcoClient.orderBy freshClient "created_at" .asc)).1
        "order=-created_at" = true
    ∧ containsSub (PcoClient.buildQuery (PcoClient.orderBy freshClient "created_at" .desc)).1
        "order=created_at" = true :=
  ⟨fun _ _ => rfl, fun _ _ => rfl, fun _ _ => rfl, by decide, by decide⟩

/-- Claim C6: for every pair of relation lists, a second `include` call
replaces the list set by the first rather than appending; concretely
`include(['emails'])` then `include(['phone_numbers'])` then `buildQuery()`
produces a query whose include parameter is `phone_numbers` only. -/
theorem claim_C6_include_replaces :
    (∀ (c : PcoClient) (r1 r2 : List String),
        (PcoClient.include' (PcoClient.include' c r1) r2).includes = r2)
    ∧ (PcoClient.buildQuery
        (PcoClient.include' (PcoClient.include' freshClient ["emails"]) ["phone_numbers"])).1
      = "?include=phone_numbers&order=created_at&limit=10&offset=0" :=
  ⟨fun _ _ _ => rfl, rfl⟩

/-- Claim C9: for every builder state, `buildQuery()` returns exactly
`?include=` followed by the comma-joined includes (empty when there are
none, so the query always begins with `?include=`), one
`&where[field]operatorvalue` segment per filter in iteration order, then
`&order=symbolfield&limit=N&offset=N`, with no URL-encoding: `&`, `=` and
spaces in a filter value appear verbatim (second conjunct). -/
theorem claim_C9_buildQuery_format :
    (∀ c : PcoClient,
        (PcoClient.buildQuery c).1
          = "?include=" ++ String.intercalate "," c.includes
            ++ String.join (c.filters.map fun t => "&where[" ++ t.1 ++ "]" ++ t.2.1 ++ t.2.2)
            ++ ("&order=" ++ c.order.symbol ++ c.order.field)
            ++ ("&limit=" ++ toString c.pagination.limit ++ "&offset="
                  ++ toString c.pagination.offset))
    ∧ (PcoClient.buildQuery (PcoClient.where' freshClient "a" "=" "x&y=z q")).1
      = "?include=&where[a]=x&y=z q&order=created_at&limit=10&offset=0" :=
  ⟨fun c => buildQueryStr_format c, rfl⟩

/-- Claim C8: for every limit and offset, `paginate(limit, offset)` then
`buildQuery()` yields a query string containing
`limit=<limit>&offset=<offset>`; concretely `paginate(25,50)` yields one
containing `limit=25&offset=50`, and without `paginate` the default is
`limit=10&offset=0`. -/
theorem claim_C8_paginate :
    (∀ (c : PcoClient) (l o : Int),
        containsSub (PcoClient.buildQuery (PcoClient.paginate c l o)).1
          ("limit=" ++ toString l ++ "&offset=" ++ toString o) = true)
    ∧ containsSub (PcoClient.buildQuery (PcoClient.paginate freshClient 25 50)).1
        "limit=25&offset=50" = true
    ∧ containsSub (PcoClient.buildQuery freshClient).1 "limit=10&offset=0" = true := by
  refine ⟨?_, by decide, by decide⟩
  intro c l o
  simp only [PcoClient.buildQuery]
  rw [buildQueryStr_format]
  rw [show ("&limit=" : String) = "&" ++ "limit=" from rfl]
  refine containsSub_intro _
    ("?include=" ++ String.intercalate "," (PcoClient.paginate c l o).includes
      ++ String.join ((PcoClient.paginate c l o).filters.map
            fun t => "&where[" ++ t.1 ++ "]" ++ t.2.1 ++ t.2.2)
      ++ ("&order=" ++ (PcoClient.paginate c l o).order.symbol
            ++ (PcoClient.paginate c l o).order.field) ++ "&") _ "" ?_
  simp [PcoClient.paginate, String.data_append, List.append_assoc]

/-- The response body `{"data":[],"meta":{"total_count":0}}` of the claim's
concrete example. -/
def emptyPeopleBody : Json :=
  .obj [("data", .arr []), ("meta", .obj [("total_count", .num 0)])]

/-- Claim C4: for every HTTP exchange, `request` fails exactly when the
response status is non-2xx, the error message contains the numeric status
code, and for a 2xx response `request` resolves to the parsed JSON body
unchanged — so a 200 response with body
`{"data":[],"meta":{"total_count":0}}` makes `getPerson` resolve to exactly
that object. -/
theorem claim_C4_request_status (c : PcoClient) (e : String) (opts : RequestOptions)
    (resp : HttpResponse) :
    ((request c e opts resp).2.isOk = true ↔ (200 ≤ resp.status ∧ resp.status ≤ 299))
    ∧ (∀ msg, (request c e opts resp).2 = .error msg
        → containsSub msg (toString resp.status) = true)
    ∧ ((200 ≤ resp.status ∧ resp.status ≤ 299) → (request c e opts resp).2 = .ok resp.body)
    ∧ (PcoPeople.getPerson c { status := 200, statusText := "OK", body := emptyPeopleBody }).1.2
        = .ok emptyPeopleBody := by
  refine ⟨?_, ?_, ?_, rfl⟩
  · by_cases hP : 200 ≤ resp.status ∧ resp.status ≤ 299 <;>
      simp [request, hP, Except.isOk, Except.toBool]
  · intro msg hmsg
    by_cases hP : 200 ≤ resp.status ∧ resp.status ≤ 299
    · simp [request, hP] at hmsg
    · simp [request, hP] at hmsg
      subst hmsg
      refine containsSub_intro _ "API request failed with status " _
        ("\n" ++ resp.statusText
          ++ "\nMore details: https://developer.planning.center/docs/#/overview/errors") ?_
      simp [apiErrorMsg, String.data_append, List.append_assoc]
  · intro hP
    simp [request, hP]

/-- Witness for C4: a 404 response makes `request` fail with a message
containing `404`, and a 200 response resolves to the body. -/
theorem claim_C4_witness :
    (request freshClient "/x" {} { status := 404, statusText := "Not Found", body := .null }).2
        = .error (apiErrorMsg 404 "Not Found")
    ∧ containsSub (apiErrorMsg 404 "Not Found") (toString (404 : Nat)) = true
    ∧ (request freshClient "/x" {} { status := 200, statusText := "OK", body := .null }).2
        = .ok .null :=
  ⟨rfl,
   (claim_C4_request_status freshClient "/x" {}
      { status := 404, statusText := "Not Found", body := .null }).2.1
     (apiErrorMsg 404 "Not Found") rfl,
   (claim_C4_request_status freshClient "/x" {}
      { status := 200, statusText := "OK", body := .null }).2.2.1 (by decide)⟩

/-- Claim C7: for every field, operator and value, `where(field, operator,
value)` sets the filter entry for that field (leaving other fields alone; a
later `where` on the same field overwrites the earlier one), and
`buildQuery()` emits the segment `&where[field]operatorvalue` for each
stored filter; concretely
`where('search_name_or_email','=','a@example.com')` then `buildQuery()`
yields a string containing `where[search_name_or_email]=a@example.com`. -/
theorem claim_C7_where_filters :
    (∀ (c : PcoClient) (f op v : String),
        lookupKey (PcoClient.where' c f op v).filters f = some (op, v))
    ∧ (∀ (c : PcoClient) (f op v g : String), g ≠ f
        → lookupKey (PcoClient.where' c f op v).filters g = lookupKey c.filters g)
    ∧ (∀ (c : PcoClient) (f op1 v1 op2 v2 : String),
        lookupKey (PcoClient.where' (PcoClient.where' c f op1 v1) f op2 v2).filters f
          = some (op2, v2))
    ∧ (∀ (c : PcoClient) (f op v : String), lookupKey c.filters f = some (op, v)
        → containsSub (PcoClient.buildQuery c).1 ("&where[" ++ f ++ "]" ++ op ++ v) = true)
    ∧ containsSub (PcoClient.buildQuery
        (PcoClient.where' freshClient "search_name_or_email" "=" "a@example.com")).1
        "where[search_name_or_email]=a@example.com" = true := by
  refine ⟨?_, ?_, ?_, ?_, by decide⟩
  · intro c f op v
    exact lookupKey_setKey_self _ _ _
  · intro c f op v g hg
    exact lookupKey_setKey_ne _ _ _ _ hg
  · intro c f op1 v1 op2 v2
    exact lookupKey_setKey_self _ _ _
  · intro c f op v h
    obtain ⟨l1, l2, hl⟩ := lookupKey_decomp _ _ _ h
    simp only [PcoClient.buildQuery]
    rw [buildQueryStr_format, hl, List.map_append, List.map_cons, strJoin_append, strJoin_cons]
    refine containsSub_intro _
      ("?include=" ++ String.intercalate "," c.includes
        ++ String.join (l1.map fun t => "&where[" ++ t.1 ++ "]" ++ t.2.1 ++ t.2.2)) _
      (String.join (l2.map fun t => "&where[" ++ t.1 ++ "]" ++ t.2.1 ++ t.2.2)
        ++ ("&order=" ++ c.order.symbol ++ c.order.field)
        ++ ("&limit=" ++ toString c.pagination.limit ++ "&offset="
              ++ toString c.pagination.offset)) ?_
    simp [String.data_append, List.append_assoc]

/-- Witness for C7: the hypotheses of the conditional conjuncts discharged
at concrete inputs. -/
theorem claim_C7_witness :
    ("other" ≠ "name")
    ∧ lookupKey (PcoClient.where' freshClient "name" "=" "x").filters "other"
        = lookupKey freshClient.filters "other"
    ∧ containsSub (PcoClient.buildQuery (PcoClient.where' freshClient "a" "=" "b")).1
        ("&where[" ++ "a" ++ "]" ++ "=" ++ "b") = true :=
  ⟨by decide,
   claim_C7_where_filters.2.1 freshClient "name" "=" "x" "other" (by decide),
   claim_C7_where_filters.2.2.2.1 (PcoClient.where' freshClient "a" "=" "b") "a" "=" "b"
     (claim_C7_where_filters.1 freshClient "a" "=" "b")⟩

/-- Claim C2 (amended): when the version field is a string matching
`YYYY-MM-DD` and the rest of the configuration is valid (either variant),
construction succeeds, stores that exact version, and every subsequent
request sends an `X-PCO-API-Version` header whose value is exactly that
string; when the version field is a non-empty string not matching the
pattern, construction throws `Invalid version format`; an empty version
string is ignored (no error, no header stored). -/
theorem claim_C2_version_validation :
    (∀ (cfg : PcoClientConfig) (v : String), cfg.version = some v → matchesVersion v = true
        → cfg.personalAccessToken.isSome = true
        → (construct cfg).map (fun c => c.version) = .ok (some v))
    ∧ (∀ (cfg : PcoClientConfig) (v t : String), cfg.version = some v
        → matchesVersion v = true → cfg.personalAccessToken = none → cfg.token = some t
        → validateToken t = true
        → (construct cfg).map (fun c => c.version) = .ok (some v))
    ∧ (∀ (cfg : PcoClientConfig) (v : String), cfg.version = some v → v ≠ ""
        → matchesVersion v = false → construct cfg = .error "Invalid version format")
    ∧ (∀ (cfg : PcoClientConfig) (c : PcoClient), cfg.version = some ""
        → construct cfg = .ok c → c.version = none)
    ∧ (∀ (c : PcoClient) (e : String) (opts : RequestOptions) (resp : HttpResponse)
        (v : String), c.version = some v → v ≠ ""
        → lookupKey ((request c e opts resp).1.headers) "X-PCO-API-Version" = some v) := by
  refine ⟨?_, ?_, ?_, ?_, ?_⟩
  · intro cfg v hv hm hp
    have hne := matchesVersion_ne_empty hm
    obtain ⟨p, hp'⟩ := Option.isSome_iff_exists.mp hp
    simp only [construct, checkVersion]
    rw [hv, hp']
    simp [hne, hm, mkClient, Except.map]
  · intro cfg v t hv hm hpn ht hvt
    have hne := matchesVersion_ne_empty hm
    simp only [construct, checkVersion]
    rw [hv, hpn, ht]
    simp [hne, hm, hvt, mkClient, Except.map]
  · intro cfg v hv hne hm
    simp only [construct, checkVersion]
    rw [hv]
    simp [hne, hm]
  · intro cfg c hv hok
    simp only [construct, checkVersion] at hok
    rw [hv] at hok
    simp only [if_pos rfl] at hok
    cases hpat : cfg.personalAccessToken with
    | some p =>
      rw [hpat] at hok
      simp at hok
      rw [← hok]
      rfl
    | none =>
      rw [hpat] at hok
      cases htok : cfg.token with
      | some t =>
        rw [htok] at hok
        by_cases hvt : validateToken t
        · simp [hvt] at hok
          rw [← hok]
          rfl
        · simp [hvt] at hok
      | none =>
        rw [htok] at hok
        simp at hok
  · intro c e opts resp v hv hne
    simp only [request]
    rw [hv]
    simp only [hne, if_neg, if_false]
    split <;>
      rw [lookupKey_setKey_ne _ _ "Authorization" _ (by decide),
        lookupKey_setKey_ne _ _ "Content-Type" _ (by decide),
        lookupKey_setKey_self]

/-- Witness for C2: the amended claim instantiated at a valid personal
access token configuration with version `2024-06-09`. -/
theorem claim_C2_witness :
    matchesVersion "2024-06-09" = true
    ∧ (construct
          { personalAccessToken := some "pat1", appId := some "app1",
            version := some "2024-06-09" }).map (fun c => c.version) = .ok (some "2024-06-09")
    ∧ lookupKey ((request (mkClient "auth" none (some "2024-06-09")) "/people/v2" {}
          { status := 200, statusText := "OK", body := .null }).1.headers) "X-PCO-API-Version"
        = some "2024-06-09" :=
  ⟨by decide,
   claim_C2_version_validation.1 _ "2024-06-09" rfl (by decide) rfl,
   claim_C2_version_validation.2.2.2.2 _ "/people/v2" {}
     { status := 200, statusText := "OK", body := .null } "2024-06-09" rfl (by decide)⟩

/-- Counterexample for C2 as stated: a configuration whose version matches
`YYYY-MM-DD` can still fail construction (malformed OAuth token), and a
configuration whose version is the non-matching string `""` does not throw
`Invalid version format` — the constructor's truthiness test skips empty
strings. -/
theorem claim_C2_counterexample :
    matchesVersion "2024-06-09" = true
    ∧ construct { token := some "nothex", version := some "2024-06-09" }
        = .error "Invalid token format"
    ∧ matchesVersion "" = false
    ∧ (construct
          { personalAccessToken := some "pat1", appId := some "app1",
            version := some "" }).isOk = true :=
  ⟨by decide, rfl, by decide, rfl⟩

/-- Claim C3 (amended): for every OAuth configuration (token present, no
personalAccessToken) whose version field is absent, empty, or matches
`YYYY-MM-DD`, construction succeeds if and only if the token matches
`^[0-9a-f]{64}$` or `^pco_tok_[0-9a-f]{72}$` — succeeding with
`Authorization` value `Bearer <token>` (which every request sends), failing
with `Invalid token format` otherwise. -/
theorem claim_C3_token_validation :
    (∀ (cfg : PcoClientConfig) (t : String), cfg.personalAccessToken = none
        → cfg.token = some t → versionPasses cfg = true → validateToken t = true
        → (construct cfg).map (fun c => c.authentication) = .ok ("Bearer " ++ t))
    ∧ (∀ (cfg : PcoClientConfig) (t : String), cfg.personalAccessToken = none
        → cfg.token = some t → versionPasses cfg = true → validateToken t = false
        → construct cfg = .error "Invalid token format")
    ∧ (∀ (c : PcoClient) (e : String) (opts : RequestOptions) (resp : HttpResponse),
        lookupKey ((request c e opts resp).1.headers) "Authorization"
          = some c.authentication) := by
  refine ⟨?_, ?_, ?_⟩
  · intro cfg t hp ht hvp hvt
    obtain ⟨ver, hcv⟩ := checkVersion_passes cfg hvp
    simp only [construct]
    rw [hcv, hp, ht]
    simp [hvt, mkClient, Except.map]
  · intro cfg t hp ht hvp hvt
    obtain ⟨ver, hcv⟩ := checkVersion_passes cfg hvp
    simp only [construct]
    rw [hcv, hp, ht]
    simp [hvt]
  · intro c e opts resp
    simp only [request]
    split <;> exact lookupKey_setKey_self _ _ _

/-- Witness for C3: a 64-hex-digit token constructs successfully with the
`Bearer` authorization value. -/
theorem claim_C3_witness :
    validateToken "aaaaaaaaaaaaaaaaaaaaaaaaaaaaaaaaaaaaaaaaaaaaaaaaaaaaaaaaaaaaaaaa" = true
    ∧ (construct
        { token := some "aaaaaaaaaaaaaaaaaaaaaaaaaaaaaaaaaaaaaaaaaaaaaaaaaaaaaaaaaaaaaaaa" }).map
          (fun c => c.authentication)
      = .ok ("Bearer " ++ "aaaaaaaaaaaaaaaaaaaaaaaaaaaaaaaaaaaaaaaaaaaaaaaaaaaaaaaaaaaaaaaa") :=
  ⟨by decide,
   claim_C3_token_validation.1 _
     "aaaaaaaaaaaaaaaaaaaaaaaaaaaaaaaaaaaaaaaaaaaaaaaaaaaaaaaaaaaaaaaa" rfl rfl rfl
     (by decide)⟩

/-- Counterexample for C3 as stated: an OAuth configuration whose token
matches the 64-hex format nevertheless fails construction when its version
field is an invalid string, so "construction succeeds iff the token
matches" is false over all OAuth configurations. -/
theorem claim_C3_counterexample :
    validateToken "aaaaaaaaaaaaaaaaaaaaaaaaaaaaaaaaaaaaaaaaaaaaaaaaaaaaaaaaaaaaaaaa" = true
    ∧ construct
        { token := some "aaaaaaaaaaaaaaaaaaaaaaaaaaaaaaaaaaaaaaaaaaaaaaaaaaaaaaaaaaaaaaaa",
          version := some "notadate" }
      = .error "Invalid version format" :=
  ⟨by decide, rfl⟩

/-- Claim C10 (amended): for every configuration containing both a
`personalAccessToken` field and a `token` field (and whose version field is
absent, empty, or valid — otherwise the version check throws first),
construction takes the personal-access-token path: the `Authorization`
value is `Basic base64(appId + ':' + personalAccessToken)`; the OAuth token
is never format-validated (no configuration with a personalAccessToken ever
throws `Invalid token format`); and `Invalid configuration` is thrown only
when neither discriminating field is present. -/
theorem claim_C10_pat_precedence :
    (∀ (cfg : PcoClientConfig) (p : String), cfg.personalAccessToken = some p
        → cfg.token.isSome = true → versionPasses cfg = true
        → (construct cfg).map (fun c => c.authentication)
            = .ok ("Basic " ++ btoa (cfg.appId.getD "undefined" ++ ":" ++ p)))
    ∧ (∀ cfg : PcoClientConfig, cfg.personalAccessToken.isSome = true
        → construct cfg ≠ .error "Invalid token format")
    ∧ (∀ cfg : PcoClientConfig, construct cfg = .error "Invalid configuration"
        → cfg.personalAccessToken = none ∧ cfg.token = none) := by
  refine ⟨?_, ?_, ?_⟩
  · intro cfg p hp htok hvp
    obtain ⟨ver, hcv⟩ := checkVersion_passes cfg hvp
    simp only [construct]
    rw [hcv, hp]
    simp [mkClient, Except.map]
  · intro cfg hp hcontra
    obtain ⟨p, hp'⟩ := Option.isSome_iff_exists.mp hp
    simp only [construct] at hcontra
    cases hcv : checkVersion cfg with
    | error e =>
      rw [hcv] at hcontra
      rw [checkVersion_error cfg e hcv] at hcontra
      simp at hcontra
    | ok ver =>
      rw [hcv, hp'] at hcontra
      simp at hcontra
  · intro cfg h
    simp only [construct] at h
    cases hcv : checkVersion cfg with
    | error e =>
      rw [hcv] at h
      rw [checkVersion_error cfg e hcv] at h
      simp at h
    | ok ver =>
      rw [hcv] at h
      cases hp : cfg.personalAccessToken with
      | some p =>
        rw [hp] at h
        simp at h
      | none =>
        rw [hp] at h
        cases ht : cfg.token with
        | some t =>
          rw [ht] at h
          by_cases hvt : validateToken t <;> simp [hvt] at h
        | none => exact ⟨rfl, rfl⟩

/-- Witness for C10: a configuration carrying both fields, with an
arbitrarily malformed OAuth token, constructs via the personal-access-token
path with the `Basic` authorization value. -/
theorem claim_C10_witness :
    (construct
        { personalAccessToken := some "pat1", appId := some "app1",
          token := some "notavalidtoken" }).map (fun c => c.authentication)
      = .ok ("Basic " ++ btoa ("app1" ++ ":" ++ "pat1")) :=
  claim_C10_pat_precedence.1 _ "pat1" rfl rfl rfl

/-- Counterexample for C10 as stated: a configuration with both
discriminating fields but an invalid version string never reaches the
personal-access-token branch — construction throws `Invalid version format`
and no `Authorization` value is derived. -/
theorem claim_C10_counterexample :
    construct
        { personalAccessToken := some "p", appId := some "a", token := some "t",
          version := some "bad" } = .error "Invalid version format"
    ∧ (construct
        { personalAccessToken := some "p", appId := some "a", token := some "t",
          version := some "bad" }).isOk = false :=
  ⟨rfl, rfl⟩
